import Mathlib

/-!
# xmail: MIME multipart explosion (`mail.go`)

A shallow embedding of `BuildFileName`, `WritePart`, `ParsePart` and `Parse` of
package `xmail`, together with the parts of the Go standard library they call.

* Bytes are `Fin 256`; header values, boundaries and file names are `String`s
  (the valid UTF-8 strings of Go).
* An `io.Reader` holding a MIME body is a `Stream`: what `io.ReadAll` returns on
  it, and what the successive `NextPart` calls of a `multipart.Reader` built on it
  return.  A message is therefore a finite tree of parts.
* `base64.StdEncoding.DecodeString` and `quotedprintable.Reader` are modelled in
  full, `Part.FileName` and `filepath.Base` (with `/` as the separator) too.
  `mime.ParseMediaType`, `mime.ExtensionsByType` and `unicode.ToUpper` are fields
  of a `Lib` record: every theorem holds for every behaviour of those functions.
* `os.WriteFile` is an injected sink: the embedding returns the list of
  `(file name, data)` calls made, in order.  Trace output is not modelled, apart
  from the panic of `strings.Repeat` on a count it refuses.
* A run-time panic unwinds the traversal: an `Outcome` records the writes made
  before it and how the call ended.
-/

namespace Xmail

/-! ## Data model -/

abbrev Byte := Fin 256

abbrev Bytes := List Byte

deriving instance DecidableEq for Except

/-- A `textproto.MIMEHeader`: canonical key, list of values. -/
abbrev Header := List (String × List String)

/-- `MIMEHeader.Get`: the first value stored under the key, `""` when there is none. -/
def Header.Get (h : Header) (key : String) : String :=
  match h.lookup key with
  | some (v :: _) => v
  | _ => ""

/-- Indexing a `map[string]string`: the value under the key, `""` when the key is missing. -/
def paramsGet (params : List (String × String)) (key : String) : String :=
  (params.lookup key).getD ""

mutual
/-- An `io.Reader` over a MIME body.  `data` and `err` are what `io.ReadAll` returns;
`parts boundary` is what a `multipart.Reader` created on the stream with a non-empty
`boundary` yields. -/
inductive Stream where
  | mk (data : Bytes) (err : Option String) (parts : String → Parts)
/-- The results of the successive `NextPart` calls of one `multipart.Reader`. -/
inductive Parts where
  | eof
  | fail (msg : String)
  | part (header : Header) (body : Stream) (rest : Parts)
end

/-- A `*multipart.Part`: its header and its body reader. -/
structure Part where
  Header : Header
  body : Stream

/-- `io.ReadAll`. -/
def Stream.ReadAll : Stream → Except String Bytes
  | .mk data none _ => .ok data
  | .mk _ (some e) _ => .error e

/-- The standard library functions the package calls and that are not modelled here. -/
structure Lib where
  /-- `mime.ParseMediaType` on a non-empty value: media type and parameters. -/
  parseMediaType : String → Except String (String × List (String × String))
  /-- `mime.ExtensionsByType`: the (possibly empty) sorted list of extensions. -/
  extensionsByType : String → Except String (List String)
  /-- `unicode.ToUpper` on a rune outside ASCII. -/
  upperRune : Char → Char

/-- An `io.Reader` holding a whole message: what `mail.ReadMessage` returns on it, the
header and the body reader, or an error. -/
structure MessageReader where
  ReadMessage : Except String (Header × Stream)

/-- `mime.ParseMediaType`.  An empty value has no media type. -/
def ParseMediaType (L : Lib) (v : String) : Except String (String × List (String × String)) :=
  if v = "" then .error "mime: no media type" else L.parseMediaType v

/-- `strings.ToUpper`, rune by rune. -/
def ToUpper (L : Lib) (s : String) : String :=
  String.mk (s.toList.map (fun c => if c.toNat < 128 then c.toUpper else L.upperRune c))

/-- `filepath.Base`, the separator being `/`: trailing separators are dropped, then
the last element of the path is kept; `.` for the empty path, `/` for a path made of
separators only. -/
def filepathBase (path : String) : String :=
  if path = "" then "."
  else
    let stripped := (path.toList.reverse.dropWhile (fun c => c = '/')).reverse
    let last := (stripped.reverse.takeWhile (fun c => c ≠ '/')).reverse
    if last = [] then "/" else String.mk last

/-- The `filename` parameter of the Content-Disposition header, `""` when the header
cannot be parsed or has no such parameter (`Part.parseContentDisposition`). -/
def dispositionFilename (L : Lib) (header : Header) : String :=
  match ParseMediaType L (header.Get "Content-Disposition") with
  | .ok (_, params) => paramsGet params "filename"
  | .error _ => ""

/-- `Part.FileName`: the base name of the declared file name, `""` when none is
declared. -/
def FileName (L : Lib) (header : Header) : String :=
  let filename := dispositionFilename L header
  if filename = "" then "" else filepathBase filename

/-- `strings.HasPrefix(s, "multipart/")`. -/
def isMultipart (mediaType : String) : Bool :=
  "multipart/".toList.isPrefixOf mediaType.toList

/-! ## `encoding/base64`, `StdEncoding.DecodeString` -/

/-- The standard alphabet. -/
def encodeStd : Bytes :=
  "ABCDEFGHIJKLMNOPQRSTUVWXYZabcdefghijklmnopqrstuvwxyz0123456789+/".toList.map
    (fun c => Fin.ofNat c.toNat)

/-- The decode table: the index of the byte in the alphabet, `0xff` for a byte outside it. -/
def decodeMap (c : Byte) : Nat :=
  if encodeStd.indexOf c < 64 then encodeStd.indexOf c else 255

def isNewline (c : Byte) : Bool := c = 10 || c = 13

/-- The `for si < len(src) && (src[si] == '\n' || src[si] == '\r')` loops. -/
def skipNewlines : Bytes → Bytes
  | [] => []
  | c :: rest => if isNewline c then skipNewlines rest else c :: rest

/-- Convert the `dlen` sextets read into `dlen - 1` bytes
(`val := dbuf[0]<<18 | dbuf[1]<<12 | dbuf[2]<<6 | dbuf[3]`). -/
def assemble (dbuf : List Nat) : Bytes :=
  let val := dbuf.getD 0 0 * 262144 + dbuf.getD 1 0 * 4096 + dbuf.getD 2 0 * 64 + dbuf.getD 3 0
  ([val / 65536, val / 256, val].map (fun n => (Fin.ofNat n : Byte))).take (dbuf.length - 1)

/-- The tail of `decodeQuantum` once the padding is complete: skip newlines, anything
left is trailing garbage. -/
def afterPadding (src : Bytes) (dbuf : List Nat) : Except String Bytes :=
  if skipNewlines src = [] then .ok (assemble dbuf) else .error "illegal base64 data"

/-- `Decode`: `decodeQuantum` repeated until the input is exhausted.  `dbuf` holds the
sextets of the quantum being read. -/
def decodeFrom : Bytes → List Nat → Except String Bytes
  | [], dbuf => if dbuf.length = 0 then .ok [] else .error "illegal base64 data"
  | c :: rest, dbuf =>
    if decodeMap c ≠ 255 then
      if dbuf.length = 3 then
        (decodeFrom rest []).map (fun out => assemble (dbuf ++ [decodeMap c]) ++ out)
      else decodeFrom rest (dbuf ++ [decodeMap c])
    else if isNewline c then decodeFrom rest dbuf
    else if c ≠ 61 then .error "illegal base64 data"
    else if dbuf.length < 2 then .error "illegal base64 data"
    else if dbuf.length = 2 then
      match skipNewlines rest with
      | [] => .error "illegal base64 data"
      | c2 :: rest2 =>
        if c2 ≠ 61 then .error "illegal base64 data" else afterPadding rest2 dbuf
    else afterPadding rest dbuf

/-- `base64.StdEncoding.DecodeString`. -/
def DecodeString (s : Bytes) : Except String Bytes := decodeFrom s []

/-! ## `mime/quotedprintable`, `io.ReadAll(quotedprintable.NewReader(r))` -/

def isQPDiscardWhitespace (c : Byte) : Bool := c = 10 || c = 13 || c = 32 || c = 9

def fromHex (b : Byte) : Option Nat :=
  if 48 ≤ b.val ∧ b.val ≤ 57 then some (b.val - 48)
  else if 65 ≤ b.val ∧ b.val ≤ 70 then some (b.val - 65 + 10)
  else if 97 ≤ b.val ∧ b.val ≤ 102 then some (b.val - 97 + 10)
  else none

/-- `readHexByte`. -/
def readHexByte : Bytes → Option Byte
  | h :: l :: _ =>
    match fromHex h, fromHex l with
    | some hb, some lb => some (Fin.ofNat (hb * 16 + lb))
    | _, _ => none
  | _ => none

/-- The input cut into the slices `bufio.Reader.ReadSlice('\n')` returns: each slice
runs up to and including a line feed, the last one may lack it. -/
def slices : Bytes → List Bytes
  | [] => []
  | c :: rest =>
    if c = 10 then [c] :: slices rest
    else
      match slices rest with
      | [] => [[c]]
      | l :: ls => (c :: l) :: ls

/-- `bytes.TrimRightFunc(line, isQPDiscardWhitespace)`. -/
def trimRight (line : Bytes) : Bytes :=
  (line.reverse.dropWhile isQPDiscardWhitespace).reverse

/-- The bytes of one slice left to decode, after the trailing white space and a soft line
break are removed (`atEOF`: the slice was returned with `io.EOF`). -/
def prepareLine (wholeLine : Bytes) (atEOF : Bool) : Except String Bytes :=
  let hasLF := [(10 : Byte)].isSuffixOf wholeLine
  let hasCR := [(13 : Byte), 10].isSuffixOf wholeLine
  let line := trimRight wholeLine
  if [(61 : Byte)].isSuffixOf line then
    let rightStripped := wholeLine.drop line.length
    let line1 := line.dropLast
    if !([(10 : Byte)].isPrefixOf rightStripped) && !([(13 : Byte), 10].isPrefixOf rightStripped)
        && !(rightStripped.length = 0 && 0 < line1.length && atEOF) then
      .error "quotedprintable: invalid bytes after ="
    else .ok line1
  else if hasLF then
    if hasCR then .ok (line ++ [13, 10]) else .ok (line ++ [10])
  else .ok line

/-- The byte loop of `Reader.Read` over one prepared line.  After `=`, two hexadecimal
digits give a byte; otherwise the `=` is taken literally, unless the line ends there or a
line break follows. -/
def decodeLine : Bytes → Except String Bytes
  | [] => .ok []
  | b :: rest =>
    if b = 61 then
      match rest with
      | [] => .error "unexpected EOF"
      | [c] =>
        if c ≠ 13 ∧ c ≠ 10 then (decodeLine [c]).map (fun out => b :: out)
        else .error "unexpected EOF"
      | h :: l :: rest2 =>
        match readHexByte (h :: l :: rest2) with
        | some v => (decodeLine rest2).map (fun out => v :: out)
        | none =>
          if h ≠ 13 ∧ h ≠ 10 then (decodeLine (h :: l :: rest2)).map (fun out => b :: out)
          else .error "quotedprintable: invalid hex byte"
    else if b = 9 ∨ b = 13 ∨ b = 10 then (decodeLine rest).map (fun out => b :: out)
    else if 128 ≤ b.val then (decodeLine rest).map (fun out => b :: out)
    else if b.val < 32 ∨ 126 < b.val then
      .error "quotedprintable: invalid unescaped byte in body"
    else (decodeLine rest).map (fun out => b :: out)

/-- One slice: it must fit the 4096-byte buffer of the `bufio.Reader`. -/
def decodeSlice (wholeLine : Bytes) : Except String Bytes :=
  let hasLF := [(10 : Byte)].isSuffixOf wholeLine
  if (hasLF && 4096 < wholeLine.length) || (!hasLF && 4096 ≤ wholeLine.length) then
    .error "bufio: buffer full"
  else
    match prepareLine wholeLine (!hasLF) with
    | .error e => .error e
    | .ok line => decodeLine line

def decodeSlices : List Bytes → Except String Bytes
  | [] => .ok []
  | l :: ls =>
    match decodeSlice l with
    | .error e => .error e
    | .ok out => (decodeSlices ls).map (fun more => out ++ more)

/-- `io.ReadAll(quotedprintable.NewReader(bytes.NewReader(data)))`. -/
def qpReadAll (data : Bytes) : Except String Bytes := decodeSlices (slices data)

/-! ## `mail.go` -/

/-- One `os.WriteFile(filename, data, 0644)` call. -/
abbrev Write := String × Bytes

/-- `BuildFileName`.  `.error` is the run-time panic of `mimeType[0]` on an empty slice;
the bare `return` gives the named result `filename`, still empty at that point. -/
def BuildFileName (L : Lib) (part : Part) (radix : String) (index : Int) :
    Except String String :=
  let filename := FileName L part.Header
  if filename.length > 0 then .ok filename
  else
    match ParseMediaType L (part.Header.Get "Content-Type") with
    | .ok (mediaType, _) =>
      match L.extensionsByType mediaType with
      | .ok mimeType =>
        match mimeType with
        | ext :: _ => .ok (radix ++ "-" ++ toString index ++ ext)
        | [] => .error "index out of range [0] with length 0"
      | .error _ => .ok filename
    | .error _ => .ok filename

/-- `WritePart`: the `os.WriteFile` calls it makes. -/
def WritePart (L : Lib) (part : Part) (filename : String) : List Write :=
  match part.body.ReadAll with
  | .error _ => []
  | .ok partData =>
    let contentTransferEncoding := ToUpper L (part.Header.Get "Content-Transfer-Encoding")
    if contentTransferEncoding = "BASE64" then
      match DecodeString partData with
      | .error _ => []
      | .ok decodedContent => [(filename, decodedContent)]
    else if contentTransferEncoding = "QUOTED-PRINTABLE" then
      match qpReadAll partData with
      | .error _ => []
      | .ok decodedContent => [(filename, decodedContent)]
    else [(filename, partData)]

/-- How a call ended: it returned, or a run-time panic unwound it. -/
inductive Status where
  | returned
  | panicked (msg : String)
  deriving DecidableEq

/-- What a traversal did: the `os.WriteFile` calls made, in order, and how it ended. -/
structure Outcome where
  writes : List Write
  status : Status
  deriving DecidableEq

/-- Sequencing: `next` runs only when `first` returned. -/
def Outcome.andThen (first next : Outcome) : Outcome :=
  match first.status with
  | .returned => ⟨first.writes ++ next.writes, next.status⟩
  | .panicked _ => first

/-- Arithmetic of the Go `int` (64 bits, two's complement). -/
def wrapInt (x : Int) : Int := (x + 9223372036854775808) % 18446744073709551616 - 9223372036854775808

/-- The count given to `strings.Repeat("  ", 2*(index-1))` in the trace lines. -/
def repeatCount (index : Int) : Int := wrapInt (2 * wrapInt (index - 1))

/-- The panic of `strings.Repeat("  ", count)`, if any: the count is negative, or the
length `2 * count` of the result overflows an `int`. -/
def tracePanic (index : Int) : Option String :=
  if repeatCount index < 0 then some "strings: negative Repeat count"
  else if 4611686018427387904 ≤ repeatCount index then
    some "strings: Repeat output length overflow"
  else none

/-- The test `err == nil && strings.HasPrefix(mediaType, "multipart/")` of `ParsePart` on
a part: `some params["boundary"]` when it holds, `none` when the part is a leaf. -/
def nestedBoundary (L : Lib) (header : Header) : Option String :=
  match ParseMediaType L (header.Get "Content-Type") with
  | .ok (mediaType, params) =>
    if isMultipart mediaType then some (paramsGet params "boundary") else none
  | .error _ => none

mutual
/-- `ParsePart`.  `multipart.NewReader` never returns nil; `NextPart` refuses an empty
boundary (`multipart: boundary is empty`) before reading anything. -/
def ParsePart (L : Lib) : Stream → String → Int → Outcome
  | .mk _ _ parts, boundary, index =>
    match tracePanic index with
    | some msg => ⟨[], .panicked msg⟩
    | none =>
      if boundary = "" then ⟨[], .returned⟩
      else nextParts L boundary index (parts boundary)
/-- The `for` loop of `ParsePart` over the remaining `NextPart` results. -/
def nextParts (L : Lib) : String → Int → Parts → Outcome
  | _, _, .eof => ⟨[], .returned⟩
  | _, _, .fail _ => ⟨[], .returned⟩
  | boundary, index, .part header body rest =>
    match nestedBoundary L header with
    | some nested =>
      (ParsePart L body nested (wrapInt (index + 1))).andThen (nextParts L boundary index rest)
    | none =>
      match BuildFileName L ⟨header, body⟩ boundary 1 with
      | .error msg => ⟨[], .panicked msg⟩
      | .ok filename =>
        (Outcome.mk (WritePart L ⟨header, body⟩ ("_test/out/" ++ filename)) .returned).andThen
          (nextParts L boundary index rest)
end

/-- `Parse`.  `.error` is the exit of `log.Fatal`. -/
def Parse (L : Lib) (message : MessageReader) : Except String Outcome :=
  match message.ReadMessage with
  | .error e => .error ("Parse mail KO - " ++ e)
  | .ok (header, body) =>
    match ParseMediaType L (header.Get "Content-Type") with
    | .error e => .error e
    | .ok (mediaType, params) =>
      if !isMultipart mediaType then .error "Not a multipart MIME message"
      else .ok (ParsePart L body (paramsGet params "boundary") 1)

/-! ## Specification-side definitions -/

/-- Standard base64 (RFC 4648, with padding): three bytes give four letters of the
alphabet, a final group of one or two bytes is padded with `=`. -/
def specBase64Encode : Bytes → Bytes
  | a :: b :: c :: rest =>
    [encodeStd.getD (a.val / 4) 0, encodeStd.getD (a.val % 4 * 16 + b.val / 16) 0,
      encodeStd.getD (b.val % 16 * 4 + c.val / 64) 0, encodeStd.getD (c.val % 64) 0]
      ++ specBase64Encode rest
  | [a, b] =>
    [encodeStd.getD (a.val / 4) 0, encodeStd.getD (a.val % 4 * 16 + b.val / 16) 0,
      encodeStd.getD (b.val % 16 * 4) 0, 61]
  | [a] => [encodeStd.getD (a.val / 4) 0, encodeStd.getD (a.val % 4 * 16) 0, 61, 61]
  | [] => []

/-- An upper-case hexadecimal digit. -/
def hexDigit (n : Nat) : Byte := Fin.ofNat (if n < 10 then 48 + n else 55 + n)

/-- Quoted-printable representation of one byte of binary data (RFC 2045, 6.7): a
printable character other than `=` stands for itself, any other byte is `=XX`. -/
def qpToken (b : Byte) : Bytes :=
  if 33 ≤ b.val ∧ b.val ≤ 126 ∧ b.val ≠ 61 then [b]
  else [61, hexDigit (b.val / 16), hexDigit (b.val % 16)]

/-- Quoted-printable encoding from column `col`: a soft line break `=\r\n` is inserted
so that no line exceeds 76 characters. -/
def specQPEncodeFrom (col : Nat) : Bytes → Bytes
  | [] => []
  | b :: rest =>
    if col + (qpToken b).length > 75 then
      [61, 13, 10] ++ qpToken b ++ specQPEncodeFrom (qpToken b).length rest
    else qpToken b ++ specQPEncodeFrom (col + (qpToken b).length) rest

/-- Quoted-printable encoding of a byte blob. -/
def specQuotedPrintableEncode (b : Bytes) : Bytes := specQPEncodeFrom 0 b

/-- The bytes a token is made of: printable, neither white space nor a line break. -/
def Printable (c : Byte) : Prop := 33 ≤ c.val ∧ c.val ≤ 126

/-- The tokens of the bytes `p`, one after the other. -/
def tokens (p : Bytes) : Bytes := p.flatMap qpToken

/-- Equality of two strings up to the case of their ASCII letters. -/
def equalFoldASCII (a b : String) : Prop :=
  a.toList.map Char.toLower = b.toList.map Char.toLower

/-- The string holds ASCII characters only. -/
def isASCII (s : String) : Prop := ∀ c ∈ s.toList, c.toNat < 128

mutual
/-- The leaf parts the recursive walk reaches on a stream read with `boundary`, each
with the boundary of the multipart level that immediately encloses it. -/
def leavesOf (L : Lib) : Stream → String → List (Part × String)
  | .mk _ _ parts, boundary => if boundary = "" then [] else leavesIn L boundary (parts boundary)
/-- The leaves under the remaining parts of one level. -/
def leavesIn (L : Lib) : String → Parts → List (Part × String)
  | _, .eof => []
  | _, .fail _ => []
  | boundary, .part header body rest =>
    (match nestedBoundary L header with
      | some nested => leavesOf L body nested
      | none => [(⟨header, body⟩, boundary)]) ++ leavesIn L boundary rest
end

/-- The writes of one leaf named from `radix` and the index 1. -/
def leafWrites (L : Lib) (leaf : Part × String) : List Write :=
  match BuildFileName L leaf.1 leaf.2 1 with
  | .ok filename => WritePart L leaf.1 ("_test/out/" ++ filename)
  | .error _ => []

/-- A leaf whose body decodes: it can be read, and the decoder selected by its
Content-Transfer-Encoding accepts it. -/
def decodes (L : Lib) (part : Part) : Bool :=
  match part.body.ReadAll with
  | .error _ => false
  | .ok partData =>
    if ToUpper L (part.Header.Get "Content-Transfer-Encoding") = "BASE64" then
      (DecodeString partData).toBool
    else if ToUpper L (part.Header.Get "Content-Transfer-Encoding") = "QUOTED-PRINTABLE" then
      (qpReadAll partData).toBool
    else true

/-- A leaf part whose Content-Transfer-Encoding is BASE64, in any letter case, and whose
body is not valid base64. -/
def FailsBase64 (L : Lib) (header : Header) (body : Stream) : Prop :=
  nestedBoundary L header = none ∧
  ToUpper L (header.Get "Content-Transfer-Encoding") = "BASE64" ∧
  ∃ partData e, body.ReadAll = .ok partData ∧ DecodeString partData = .error e

/-- `RemovedNamed L boundary ps qs`: the parts `qs` are the parts `ps`, read with
`boundary`, with one failing base64 leaf taken out, at this level or at any depth below
it; the leaf taken out is one that `BuildFileName` gives a name to. -/
inductive RemovedNamed (L : Lib) : String → Parts → Parts → Prop where
  | here {boundary : String} {header : Header} {body : Stream} {rest : Parts}
      (filename : String) :
      FailsBase64 L header body →
      BuildFileName L ⟨header, body⟩ boundary 1 = .ok filename →
      RemovedNamed L boundary (.part header body rest) rest
  | later {boundary : String} {header : Header} {body : Stream} {rest rest1 : Parts} :
      RemovedNamed L boundary rest rest1 →
      RemovedNamed L boundary (.part header body rest) (.part header body rest1)
  | inside {boundary nested : String} {header : Header} {data data1 : Bytes}
      {err err1 : Option String} {parts parts1 : String → Parts} {rest : Parts} :
      nestedBoundary L header = some nested →
      RemovedNamed L nested (parts nested) (parts1 nested) →
      RemovedNamed L boundary (.part header (.mk data err parts) rest)
        (.part header (.mk data1 err1 parts1) rest)

/-! ## Sample data -/

/-- The bytes of an ASCII string. -/
def bytesOf (s : String) : Bytes := s.toList.map (fun c => Fin.ofNat c.toNat)

/-- The answers of the standard library on the header values of the samples below:
`image/png` and `text/html` have registered extensions (the built-in table of package
`mime`), `application/x-unregistered` has none. -/
def sampleLib : Lib where
  parseMediaType := fun v =>
    if v = "multipart/alternative; boundary=inner" then
      .ok ("multipart/alternative", [("boundary", "inner")])
    else if v = "attachment; filename=report.pdf" then
      .ok ("attachment", [("filename", "report.pdf")])
    else if v = "attachment; filename=\"a/b/report.pdf\"" then
      .ok ("attachment", [("filename", "a/b/report.pdf")])
    else if v = "multipart/mixed" then .ok ("multipart/mixed", [])
    else if v = "image/png" then .ok ("image/png", [])
    else if v = "text/html" then .ok ("text/html", [])
    else if v = "application/x-unregistered" then .ok ("application/x-unregistered", [])
    else .error "mime: expected slash after first token"
  extensionsByType := fun t =>
    if t = "image/png" then .ok [".png"]
    else if t = "text/html" then .ok [".htm", ".html"]
    else .ok []
  upperRune := fun c => c

/-- A body reader that holds `text` and is not a multipart body. -/
def leafBody (text : String) : Stream :=
  .mk (bytesOf text) none (fun _ => .fail "multipart: NextPart: EOF")

/-- A leaf of type `image/png` with no file name and no transfer encoding. -/
def pngHeader : Header := [("Content-Type", ["image/png"])]

/-- A leaf of type `text/html`, BASE64 encoded. -/
def htmlBase64Header : Header :=
  [("Content-Type", ["text/html"]), ("Content-Transfer-Encoding", ["base64"])]

/-- A leaf whose media type has no registered extension. -/
def unregisteredHeader : Header := [("Content-Type", ["application/x-unregistered"])]

/-- Two `image/png` leaves under the boundary `outer`. -/
def twoLeaves : Stream :=
  .mk [] none (fun _ => .part pngHeader (leafBody "first") (.part pngHeader (leafBody "second") .eof))

/-- One leaf with an unregistered media type, then an `image/png` leaf. -/
def unregisteredFirst : Stream :=
  .mk [] none (fun _ =>
    .part unregisteredHeader (leafBody "data") (.part pngHeader (leafBody "second") .eof))

/-- A nested `multipart/alternative` part holding one leaf, followed by one leaf. -/
def nestedMessage : Stream :=
  .mk [] none (fun _ =>
    .part [("Content-Type", ["multipart/alternative; boundary=inner"])]
      (.mk [] none (fun _ => .part htmlBase64Header (leafBody "aGk=") .eof))
      (.part pngHeader (leafBody "second") .eof))

/-- A `multipart/mixed` part with no boundary parameter, followed by one leaf; the
inner body would yield a part if it were split. -/
def noBoundaryParts : Parts :=
  .part [("Content-Type", ["multipart/mixed"])]
    (.mk [] none (fun _ => .part pngHeader (leafBody "hidden") .eof))
    (.part pngHeader (leafBody "second") .eof)

/-- A leaf declared QUOTED-PRINTABLE. -/
def quotedPrintableHeader : Header := [("Content-Transfer-Encoding", ["Quoted-Printable"])]

/-- A `multipart/alternative` container under `outer` whose body, read with `inner`,
yields `inner`; one leaf follows it. -/
def containerParts (inner : Parts) : Parts :=
  .part [("Content-Type", ["multipart/alternative; boundary=inner"])]
    (.mk [] none (fun _ => inner)) (.part pngHeader (leafBody "second") .eof)

/-- A leaf whose media type has no registered extension, declared BASE64. -/
def unregisteredBase64Header : Header :=
  [("Content-Type", ["application/x-unregistered"]), ("Content-Transfer-Encoding", ["base64"])]

/-- A leaf declared BASE64 whose body is not base64 and whose media type has no
registered extension, followed by one leaf. -/
def badBase64UnregisteredParts : Parts :=
  .part unregisteredBase64Header (leafBody "not base64!")
    (.part pngHeader (leafBody "second") .eof)

/-- A leaf declared BASE64 whose body is not base64, followed by one leaf. -/
def badBase64Parts : Parts :=
  .part htmlBase64Header (leafBody "not base64!") (.part pngHeader (leafBody "second") .eof)


/-! ## Basic facts -/

theorem length_pos_iff_ne_empty (s : String) : s.length > 0 ↔ s ≠ "" := by
  cases s with
  | mk data =>
    cases data with
    | nil => simp [String.length]
    | cons c cs =>
      simp [String.length]
      intro h
      exact absurd (congrArg String.data h) (by simp)

theorem andThen_returned (ws : List Write) (next : Outcome) :
    (Outcome.mk ws .returned).andThen next = ⟨ws ++ next.writes, next.status⟩ := rfl

theorem andThen_status_returned {a b : Outcome} (h : (a.andThen b).status = .returned) :
    a.status = .returned ∧ b.status = .returned := by
  unfold Outcome.andThen at h
  cases hs : a.status with
  | returned => rw [hs] at h; exact ⟨rfl, h⟩
  | panicked msg => rw [hs] at h; simp only at h; rw [hs] at h; cases h

theorem andThen_writes {a b : Outcome} (h : a.status = .returned) :
    (a.andThen b).writes = a.writes ++ b.writes := by
  unfold Outcome.andThen; rw [h]

theorem andThen_status {a b : Outcome} (h : a.status = .returned) :
    (a.andThen b).status = b.status := by
  unfold Outcome.andThen; rw [h]

theorem andThen_nil_returned (b : Outcome) : (Outcome.mk [] .returned).andThen b = b := by
  cases b; rfl

/-! ## `BuildFileName` -/

theorem filepathBase_ne_empty (path : String) : filepathBase path ≠ "" := by
  unfold filepathBase
  by_cases h : path = ""
  · rw [if_pos h]; decide
  · rw [if_neg h]
    simp only
    split
    · decide
    · rename_i hlast
      intro hmk
      exact hlast (congrArg String.data hmk)

theorem dropWhile_slash_of_not_mem (l : List Char) (h : '/' ∉ l) :
    l.dropWhile (fun c => c = '/') = l := by
  cases l with
  | nil => rfl
  | cons c l =>
    have hc : c ≠ '/' := fun hc => h (by rw [hc]; exact List.mem_cons_self _ _)
    simp [List.dropWhile, hc]

theorem takeWhile_not_slash_of_not_mem (l : List Char) (h : '/' ∉ l) :
    l.takeWhile (fun c => c ≠ '/') = l := by
  induction l with
  | nil => rfl
  | cons c l ih =>
    have hc : c ≠ '/' := fun hc => h (by rw [hc]; exact List.mem_cons_self _ _)
    have hl : '/' ∉ l := fun hl => h (List.mem_cons_of_mem _ hl)
    rw [List.takeWhile_cons_of_pos (by simpa using hc), ih hl]

theorem filepathBase_of_no_slash (path : String) (hne : path ≠ "")
    (h : '/' ∉ path.toList) : filepathBase path = path := by
  unfold filepathBase
  rw [if_neg hne]
  have hrev : '/' ∉ path.toList.reverse := fun hm => h (List.mem_reverse.1 hm)
  simp only [dropWhile_slash_of_not_mem _ hrev, List.reverse_reverse,
    takeWhile_not_slash_of_not_mem _ hrev]
  have hdata : path.toList ≠ [] := by
    intro hd
    apply hne
    cases path with
    | mk data =>
      have : data = [] := hd
      subst this
      rfl
  rw [if_neg hdata]
  rfl

/-- C5 (amended): a part that declares a non-empty file name in its Content-Disposition
parameters is named by the last path element of that file name (`filepath.Base`: trailing
`/` dropped, then what follows the last `/`), for every radix and every index; the
radix, the index and the Content-Type play no role.  A declared name with no `/` in it
is returned verbatim. -/
theorem BuildFileName_declared_base (L : Lib) (part : Part) (radix : String) (index : Int)
    (disposition : String) (params : List (String × String))
    (hdisp : ParseMediaType L (part.Header.Get "Content-Disposition")
      = .ok (disposition, params))
    (hname : paramsGet params "filename" ≠ "") :
    BuildFileName L part radix index = .ok (filepathBase (paramsGet params "filename")) ∧
    ('/' ∉ (paramsGet params "filename").toList →
      BuildFileName L part radix index = .ok (paramsGet params "filename")) := by
  have hfile : FileName L part.Header = filepathBase (paramsGet params "filename") := by
    unfold FileName dispositionFilename
    rw [hdisp]
    simp only [if_neg hname]
  have hbuild : BuildFileName L part radix index
      = .ok (filepathBase (paramsGet params "filename")) := by
    unfold BuildFileName
    simp only
    rw [if_pos ((length_pos_iff_ne_empty _).2 (by rw [hfile]; exact filepathBase_ne_empty _)),
      hfile]
  refine ⟨hbuild, ?_⟩
  intro hslash
  rw [hbuild, filepathBase_of_no_slash _ hname hslash]

theorem BuildFileName_declared_base_witness :
    BuildFileName sampleLib
      ⟨[("Content-Disposition", ["attachment; filename=\"a/b/report.pdf\""])], leafBody "x"⟩
      "outer" 7 = .ok "report.pdf" ∧
    BuildFileName sampleLib
      ⟨[("Content-Disposition", ["attachment; filename=report.pdf"])], leafBody "x"⟩
      "outer" 7 = .ok "report.pdf" :=
  ⟨((BuildFileName_declared_base sampleLib
      ⟨[("Content-Disposition", ["attachment; filename=\"a/b/report.pdf\""])], leafBody "x"⟩
      "outer" 7 "attachment" [("filename", "a/b/report.pdf")] (by decide) (by decide)).1).trans
      (by decide),
    (BuildFileName_declared_base sampleLib
      ⟨[("Content-Disposition", ["attachment; filename=report.pdf"])], leafBody "x"⟩
      "outer" 7 "attachment" [("filename", "report.pdf")] (by decide) (by decide)).2
      (by decide)⟩

/-- C5 (as stated) fails: the part declares the file name `a/b/report.pdf` and is named
`report.pdf`, not the declared name. -/
theorem BuildFileName_declared_path_counterexample :
    dispositionFilename sampleLib
      [("Content-Disposition", ["attachment; filename=\"a/b/report.pdf\""])]
      = "a/b/report.pdf" ∧
    BuildFileName sampleLib
      ⟨[("Content-Disposition", ["attachment; filename=\"a/b/report.pdf\""])], leafBody "x"⟩
      "outer" 7 = .ok "report.pdf" ∧
    BuildFileName sampleLib
      ⟨[("Content-Disposition", ["attachment; filename=\"a/b/report.pdf\""])], leafBody "x"⟩
      "outer" 7 ≠ .ok "a/b/report.pdf" := by
  decide

theorem BuildFileName_synthesized (L : Lib) (part : Part) (radix : String) (index : Int)
    (mediaType : String) (params : List (String × String)) (ext : String) (exts : List String)
    (hname : FileName L part.Header = "")
    (htype : ParseMediaType L (part.Header.Get "Content-Type") = .ok (mediaType, params))
    (hext : L.extensionsByType mediaType = .ok (ext :: exts)) :
    BuildFileName L part radix index = .ok (radix ++ "-" ++ toString index ++ ext) := by
  unfold BuildFileName
  simp only
  rw [if_neg (by rw [length_pos_iff_ne_empty]; exact fun h => h hname), htype]
  simp only [hext]

/-- C6 (amended): a part that declares no file name and whose Content-Type cannot be
parsed (an absent Content-Type included) makes `BuildFileName` return normally with the
empty string: no name is synthesized from the radix and the index. -/
theorem BuildFileName_unparsable (L : Lib) (part : Part) (radix : String) (index : Int)
    (e : String) (hname : FileName L part.Header = "")
    (htype : ParseMediaType L (part.Header.Get "Content-Type") = .error e) :
    BuildFileName L part radix index = .ok "" := by
  unfold BuildFileName
  simp only
  rw [if_neg (by rw [length_pos_iff_ne_empty]; exact fun h => h hname), htype]
  simp only [hname]

theorem BuildFileName_unparsable_witness :
    BuildFileName sampleLib ⟨[("Content-Type", ["not a media type"])], leafBody "x"⟩ "outer" 1
      = .ok "" :=
  BuildFileName_unparsable sampleLib ⟨[("Content-Type", ["not a media type"])], leafBody "x"⟩
    "outer" 1 "mime: expected slash after first token" (by decide) (by decide)

/-- C6 (as stated) fails: a part with no file name and no Content-Type header is named
`""`, not `outer-1`. -/
theorem BuildFileName_absent_type_counterexample :
    FileName sampleLib [] = "" ∧
    ParseMediaType sampleLib (Header.Get [] "Content-Type") = .error "mime: no media type" ∧
    BuildFileName sampleLib ⟨[], leafBody "x"⟩ "outer" 1 = .ok "" ∧
    BuildFileName sampleLib ⟨[], leafBody "x"⟩ "outer" 1
      ≠ .ok ("outer" ++ "-" ++ toString (1 : Int)) := by
  decide

/-! ## `WritePart` -/

set_option maxRecDepth 100000 in
theorem upper_lower_below_128 : ∀ n < 128,
    (Char.ofNat n).toUpper.toLower = (Char.ofNat n).toLower ∧
    (Char.ofNat n).toLower.toUpper = (Char.ofNat n).toUpper := by
  decide

theorem upper_eq_iff_lower_eq (c d : Char) (hc : c.toNat < 128) (hd : d.toNat < 128) :
    c.toUpper = d.toUpper ↔ c.toLower = d.toLower := by
  have h1 := upper_lower_below_128 c.toNat hc
  have h2 := upper_lower_below_128 d.toNat hd
  rw [Char.ofNat_toNat] at h1 h2
  constructor
  · intro h
    rw [← h1.1, ← h2.1, h]
  · intro h
    rw [← h1.2, ← h2.2, h]

theorem map_upper_eq_iff (l m : List Char) (hl : ∀ c ∈ l, c.toNat < 128)
    (hm : ∀ c ∈ m, c.toNat < 128) :
    l.map Char.toUpper = m.map Char.toUpper ↔ l.map Char.toLower = m.map Char.toLower := by
  induction l generalizing m with
  | nil => cases m <;> simp
  | cons c l ih =>
    cases m with
    | nil => simp
    | cons d m =>
      simp only [List.map_cons, List.cons.injEq]
      rw [upper_eq_iff_lower_eq c d (hl c (List.mem_cons_self _ _)) (hm d (List.mem_cons_self _ _)),
        ih m (fun x hx => hl x (List.mem_cons_of_mem _ hx))
          (fun x hx => hm x (List.mem_cons_of_mem _ hx))]

theorem ToUpper_ascii (L : Lib) (v : String) (hv : isASCII v) :
    ToUpper L v = String.mk (v.toList.map Char.toUpper) := by
  unfold ToUpper
  congr 1
  apply List.map_congr_left
  intro c hc
  rw [if_pos (hv c hc)]

theorem ToUpper_eq_iff_equalFold (L : Lib) (v t : String) (hv : isASCII v) (ht : isASCII t)
    (hupper : t.toList.map Char.toUpper = t.toList) :
    ToUpper L v = t ↔ equalFoldASCII v t := by
  rw [ToUpper_ascii L v hv]
  unfold equalFoldASCII
  rw [← map_upper_eq_iff _ _ hv ht, hupper]
  constructor
  · intro h; rw [← h]; rfl
  · intro h; rw [h]; rfl

/-- C3: `WritePart` selects the decoding by comparing the upper-cased
Content-Transfer-Encoding value with `BASE64` and `QUOTED-PRINTABLE`: on a match the body
goes through the base64, respectively the quoted-printable decoder; for every other value
(an absent header, `7BIT`, `8BIT`, `BINARY`, anything else) the body bytes are written
unmodified under the given file name.  On ASCII values the match is equality up to
letter case. -/
theorem WritePart_dispatch (L : Lib) (part : Part) (filename : String) (partData : Bytes)
    (hread : part.body.ReadAll = .ok partData) :
    (ToUpper L (part.Header.Get "Content-Transfer-Encoding") = "BASE64" →
      WritePart L part filename =
        match DecodeString partData with
        | .ok decodedContent => [(filename, decodedContent)]
        | .error _ => []) ∧
    (ToUpper L (part.Header.Get "Content-Transfer-Encoding") = "QUOTED-PRINTABLE" →
      WritePart L part filename =
        match qpReadAll partData with
        | .ok decodedContent => [(filename, decodedContent)]
        | .error _ => []) ∧
    (ToUpper L (part.Header.Get "Content-Transfer-Encoding") ≠ "BASE64" →
      ToUpper L (part.Header.Get "Content-Transfer-Encoding") ≠ "QUOTED-PRINTABLE" →
      WritePart L part filename = [(filename, partData)]) ∧
    (∀ v, isASCII v →
      (ToUpper L v = "BASE64" ↔ equalFoldASCII v "BASE64") ∧
      (ToUpper L v = "QUOTED-PRINTABLE" ↔ equalFoldASCII v "QUOTED-PRINTABLE")) ∧
    (∀ v ∈ ["", "7BIT", "8BIT", "BINARY"],
      ¬ equalFoldASCII v "BASE64" ∧ ¬ equalFoldASCII v "QUOTED-PRINTABLE") := by
  refine ⟨?_, ?_, ?_, ?_, ?_⟩
  · intro h
    unfold WritePart
    rw [hread]
    simp only [h, if_true]
    cases DecodeString partData <;> rfl
  · intro h
    unfold WritePart
    rw [hread]
    simp only [h, if_true]
    rw [if_neg (by decide)]
    cases qpReadAll partData <;> rfl
  · intro h1 h2
    unfold WritePart
    rw [hread]
    simp only [if_neg h1, if_neg h2]
  · intro v hv
    exact ⟨ToUpper_eq_iff_equalFold L v "BASE64" hv (by unfold isASCII; decide) (by decide),
      ToUpper_eq_iff_equalFold L v "QUOTED-PRINTABLE" hv (by unfold isASCII; decide) (by decide)⟩
  · intro v hv
    simp only [List.mem_cons, List.mem_singleton, List.not_mem_nil, or_false] at hv
    rcases hv with rfl | rfl | rfl | rfl <;> (unfold equalFoldASCII; decide)

theorem WritePart_dispatch_witness :
    (Part.mk htmlBase64Header (leafBody "aGk=")).body.ReadAll = .ok (bytesOf "aGk=") ∧
    WritePart sampleLib ⟨htmlBase64Header, leafBody "aGk="⟩ "out.htm"
      = [("out.htm", bytesOf "hi")] :=
  ⟨by decide,
    ((WritePart_dispatch sampleLib ⟨htmlBase64Header, leafBody "aGk="⟩ "out.htm" (bytesOf "aGk=")
      (by decide)).1 (by decide)).trans (by decide)⟩


/-! ## The traversal -/

theorem ParsePart_eq (L : Lib) (data : Bytes) (err : Option String) (parts : String → Parts)
    (boundary : String) (index : Int) :
    ParsePart L (.mk data err parts) boundary index =
      match tracePanic index with
      | some msg => ⟨[], .panicked msg⟩
      | none =>
        if boundary = "" then ⟨[], .returned⟩
        else nextParts L boundary index (parts boundary) := by
  rw [ParsePart]

theorem nextParts_part (L : Lib) (boundary : String) (index : Int) (header : Header)
    (body : Stream) (rest : Parts) :
    nextParts L boundary index (.part header body rest) =
      match nestedBoundary L header with
      | some nested =>
        (ParsePart L body nested (wrapInt (index + 1))).andThen (nextParts L boundary index rest)
      | none =>
        match BuildFileName L ⟨header, body⟩ boundary 1 with
        | .error msg => ⟨[], .panicked msg⟩
        | .ok filename =>
          (Outcome.mk (WritePart L ⟨header, body⟩ ("_test/out/" ++ filename)) .returned).andThen
            (nextParts L boundary index rest) := by
  rw [nextParts]

mutual
theorem ParsePart_writes (L : Lib) : ∀ (s : Stream) (boundary : String) (index : Int),
    (ParsePart L s boundary index).status = .returned →
    (ParsePart L s boundary index).writes = (leavesOf L s boundary).flatMap (leafWrites L)
  | .mk data err parts, boundary, index, h => by
    rw [ParsePart_eq] at h ⊢
    rw [leavesOf]
    cases h1 : tracePanic index with
    | some msg => rw [h1] at h; cases h
    | none =>
      rw [h1] at h
      simp only at h ⊢
      by_cases h2 : boundary = ""
      · rw [if_pos h2, if_pos h2]; rfl
      · rw [if_neg h2] at h ⊢
        rw [if_neg h2]
        exact nextParts_writes L boundary index (parts boundary) h
theorem nextParts_writes (L : Lib) : ∀ (boundary : String) (index : Int) (ps : Parts),
    (nextParts L boundary index ps).status = .returned →
    (nextParts L boundary index ps).writes = (leavesIn L boundary ps).flatMap (leafWrites L)
  | boundary, index, .eof, _ => by rw [nextParts, leavesIn]; rfl
  | boundary, index, .fail _, _ => by rw [nextParts, leavesIn]; rfl
  | boundary, index, .part header body rest, h => by
    rw [nextParts_part] at h ⊢
    rw [leavesIn]
    cases hn : nestedBoundary L header with
    | some nested =>
      rw [hn] at h
      simp only at h ⊢
      have hs := andThen_status_returned h
      rw [andThen_writes hs.1, List.flatMap_append,
        ParsePart_writes L body nested _ hs.1,
        nextParts_writes L boundary index rest hs.2]
    | none =>
      rw [hn] at h
      simp only at h ⊢
      cases hb : BuildFileName L ⟨header, body⟩ boundary 1 with
      | error msg => rw [hb] at h; cases h
      | ok filename =>
        rw [hb] at h
        simp only at h ⊢
        have hs := andThen_status_returned h
        rw [andThen_writes hs.1, nextParts_writes L boundary index rest hs.2]
        simp [leafWrites, hb]
end


theorem andThen_writes_of_panicked {a b : Outcome} (h : a.status ≠ .returned) :
    a.andThen b = a := by
  unfold Outcome.andThen
  cases hs : a.status with
  | returned => exact absurd hs h
  | panicked msg => rfl

mutual
theorem ParsePart_writes_initial (L : Lib) : ∀ (s : Stream) (boundary : String) (index : Int),
    (ParsePart L s boundary index).writes <+: (leavesOf L s boundary).flatMap (leafWrites L)
  | .mk data err parts, boundary, index => by
    rw [ParsePart_eq, leavesOf]
    cases h1 : tracePanic index with
    | some msg => exact List.nil_prefix
    | none =>
      simp only
      by_cases h2 : boundary = ""
      · rw [if_pos h2]; exact List.nil_prefix
      · rw [if_neg h2, if_neg h2]
        exact nextParts_writes_initial L boundary index (parts boundary)
theorem nextParts_writes_initial (L : Lib) : ∀ (boundary : String) (index : Int) (ps : Parts),
    (nextParts L boundary index ps).writes <+: (leavesIn L boundary ps).flatMap (leafWrites L)
  | boundary, index, .eof => by rw [nextParts]; exact List.nil_prefix
  | boundary, index, .fail _ => by rw [nextParts]; exact List.nil_prefix
  | boundary, index, .part header body rest => by
    rw [nextParts_part, leavesIn, List.flatMap_append]
    cases hn : nestedBoundary L header with
    | some nested =>
      simp only
      by_cases hs : (ParsePart L body nested (wrapInt (index + 1))).status = .returned
      · rw [andThen_writes hs, ParsePart_writes L body nested _ hs]
        exact (List.prefix_append_right_inj _).2 (nextParts_writes_initial L boundary index rest)
      · rw [andThen_writes_of_panicked hs]
        exact (ParsePart_writes_initial L body nested _).trans (List.prefix_append _ _)
    | none =>
      simp only
      cases hb : BuildFileName L ⟨header, body⟩ boundary 1 with
      | error msg => exact List.nil_prefix
      | ok filename =>
        simp only
        rw [andThen_returned]
        have : [(Part.mk header body, boundary)].flatMap (leafWrites L)
            = WritePart L ⟨header, body⟩ ("_test/out/" ++ filename) := by
          simp [leafWrites, hb]
        rw [this]
        exact (List.prefix_append_right_inj _).2 (nextParts_writes_initial L boundary index rest)
end

/-- C4: a part with no declared file name whose Content-Type parses to a media type
with a registered extension is named `radix-index` followed by the first extension; and
every write `ParsePart` makes, at any depth, is the write of a leaf named by
`BuildFileName` from the boundary of the multipart level that immediately encloses the
leaf and from the constant index 1 (never the recursion index, which the names do not
depend on). -/
theorem synthesized_name_uses_enclosing_boundary (L : Lib) (stream : Stream)
    (boundary : String) (index : Int) :
    (∀ (part : Part) (radix : String) (i : Int) (mediaType : String)
        (params : List (String × String)) (ext : String) (exts : List String),
      FileName L part.Header = "" →
      ParseMediaType L (part.Header.Get "Content-Type") = .ok (mediaType, params) →
      L.extensionsByType mediaType = .ok (ext :: exts) →
      BuildFileName L part radix i = .ok (radix ++ "-" ++ toString i ++ ext)) ∧
    (ParsePart L stream boundary index).writes
      <+: (leavesOf L stream boundary).flatMap (leafWrites L) ∧
    ((ParsePart L stream boundary index).status = .returned →
      (ParsePart L stream boundary index).writes
        = (leavesOf L stream boundary).flatMap (leafWrites L)) ∧
    (∀ leaf ∈ leavesOf L stream boundary,
      ∀ (mediaType : String) (params : List (String × String)) (ext : String)
        (exts : List String),
      FileName L leaf.1.Header = "" →
      ParseMediaType L (leaf.1.Header.Get "Content-Type") = .ok (mediaType, params) →
      L.extensionsByType mediaType = .ok (ext :: exts) →
      leafWrites L leaf = WritePart L leaf.1 ("_test/out/" ++ (leaf.2 ++ "-" ++ "1" ++ ext))) := by
  refine ⟨?_, ParsePart_writes_initial L stream boundary index,
    ParsePart_writes L stream boundary index, ?_⟩
  · intro part radix i mediaType params ext exts h1 h2 h3
    exact BuildFileName_synthesized L part radix i mediaType params ext exts h1 h2 h3
  · intro leaf _ mediaType params ext exts h1 h2 h3
    unfold leafWrites
    rw [BuildFileName_synthesized L leaf.1 leaf.2 1 mediaType params ext exts h1 h2 h3]
    rfl

theorem synthesized_name_uses_enclosing_boundary_witness :
    (ParsePart sampleLib nestedMessage "outer" 1).status = .returned ∧
    (ParsePart sampleLib nestedMessage "outer" 1).writes
      = [("_test/out/inner-1.htm", bytesOf "hi"), ("_test/out/outer-1.png", bytesOf "second")] :=
  ⟨by decide,
    ((synthesized_name_uses_enclosing_boundary sampleLib nestedMessage "outer" 1).2.2.1
      (by decide)).trans (by decide)⟩


theorem WritePart_bad_base64 (L : Lib) (part : Part) (filename : String) (partData : Bytes)
    (e : String) (hread : part.body.ReadAll = .ok partData)
    (henc : ToUpper L (part.Header.Get "Content-Transfer-Encoding") = "BASE64")
    (hbad : DecodeString partData = .error e) :
    WritePart L part filename = [] := by
  unfold WritePart
  rw [hread]
  simp only [henc, if_true, hbad]

theorem nextParts_removed (L : Lib) (boundary : String) (ps qs : Parts)
    (h : RemovedNamed L boundary ps qs) :
    ∀ index, nextParts L boundary index ps = nextParts L boundary index qs := by
  induction h with
  | @here boundary header body rest filename hf hname =>
    intro index
    obtain ⟨hleaf, henc, partData, e, hread, hbad⟩ := hf
    rw [nextParts_part, hleaf]
    simp only [hname]
    rw [WritePart_bad_base64 L ⟨header, body⟩ _ partData e hread henc hbad, andThen_nil_returned]
  | @later boundary header body rest rest1 _ ih =>
    intro index
    rw [nextParts_part, nextParts_part, ih index]
  | @inside boundary nested header data data1 err err1 parts parts1 rest hn _ ih =>
    intro index
    rw [nextParts_part, nextParts_part, hn]
    simp only
    rw [ParsePart_eq, ParsePart_eq, ih]

/-- What does hold of a failing base64 leaf: `WritePart` makes no write for it; and when
`BuildFileName` gives the leaf a name (an explicit hypothesis here), the traversal goes
on as if the leaf were absent, at the level of the leaf and at every enclosing level. -/
theorem bad_base64_named_is_skipped (L : Lib) :
    (∀ (part : Part) (filename : String) (partData : Bytes) (e : String),
      part.body.ReadAll = .ok partData →
      ToUpper L (part.Header.Get "Content-Transfer-Encoding") = "BASE64" →
      DecodeString partData = .error e →
      WritePart L part filename = []) ∧
    (∀ (boundary : String) (header : Header) (body : Stream) (rest : Parts) (index : Int)
      (filename : String),
      FailsBase64 L header body →
      BuildFileName L ⟨header, body⟩ boundary 1 = .ok filename →
      nextParts L boundary index (.part header body rest) = nextParts L boundary index rest) ∧
    (∀ (boundary : String) (ps qs : Parts) (index : Int),
      RemovedNamed L boundary ps qs →
      nextParts L boundary index ps = nextParts L boundary index qs) ∧
    (∀ (boundary : String) (data data1 : Bytes) (err err1 : Option String)
      (parts parts1 : String → Parts) (index : Int),
      RemovedNamed L boundary (parts boundary) (parts1 boundary) →
      ParsePart L (.mk data err parts) boundary index
        = ParsePart L (.mk data1 err1 parts1) boundary index) := by
  refine ⟨?_, ?_, ?_, ?_⟩
  · intro part filename partData e h1 h2 h3
    exact WritePart_bad_base64 L part filename partData e h1 h2 h3
  · intro boundary header body rest index filename hf hname
    exact nextParts_removed L boundary _ _ (RemovedNamed.here filename hf hname) index
  · intro boundary ps qs index h
    exact nextParts_removed L boundary ps qs h index
  · intro boundary data data1 err err1 parts parts1 index h
    rw [ParsePart_eq, ParsePart_eq, nextParts_removed L boundary _ _ h index]

theorem bad_base64_named_is_skipped_witness :
    FailsBase64 sampleLib htmlBase64Header (leafBody "not base64!") ∧
    nextParts sampleLib "outer" 1 badBase64Parts
      = ⟨[("_test/out/outer-1.png", bytesOf "second")], .returned⟩ ∧
    nextParts sampleLib "outer" 1
        (containerParts (.part htmlBase64Header (leafBody "not base64!")
          (.part pngHeader (leafBody "third") .eof)))
      = nextParts sampleLib "outer" 1 (containerParts (.part pngHeader (leafBody "third") .eof)) :=
  have hf : FailsBase64 sampleLib htmlBase64Header (leafBody "not base64!") :=
    ⟨by decide, by decide, bytesOf "not base64!", "illegal base64 data", by decide, by decide⟩
  ⟨hf, ((bad_base64_named_is_skipped sampleLib).2.1 "outer" htmlBase64Header
      (leafBody "not base64!") (.part pngHeader (leafBody "second") .eof) 1 "outer-1.htm" hf
      (by decide)).trans (by decide),
    (bad_base64_named_is_skipped sampleLib).2.2.1 "outer" _ _ 1
      (@RemovedNamed.inside sampleLib "outer" "inner" _ _ _ _ _ _ _ _ (by decide)
        (RemovedNamed.here "inner-1.htm" hf (by decide)))⟩

/-- C7 (code bug): a leaf declared BASE64 whose body is not valid base64, with no file
name and a media type that has no registered extension, followed by a sibling.
`WritePart` on the leaf would make no write, but `ParsePart` never reaches it:
`BuildFileName` indexes the empty extension list, the panic stops the traversal and the
sibling is not written, whereas without the failing leaf the sibling is written. -/
theorem ParsePart_bad_base64_unregistered_panics :
    nestedBoundary sampleLib unregisteredBase64Header = none ∧
    ToUpper sampleLib (unregisteredBase64Header.Get "Content-Transfer-Encoding") = "BASE64" ∧
    (leafBody "not base64!").ReadAll = .ok (bytesOf "not base64!") ∧
    DecodeString (bytesOf "not base64!") = .error "illegal base64 data" ∧
    WritePart sampleLib ⟨unregisteredBase64Header, leafBody "not base64!"⟩ "any" = [] ∧
    nextParts sampleLib "outer" 1 badBase64UnregisteredParts
      = ⟨[], .panicked "index out of range [0] with length 0"⟩ ∧
    nextParts sampleLib "outer" 1 (.part pngHeader (leafBody "second") .eof)
      = ⟨[("_test/out/outer-1.png", bytesOf "second")], .returned⟩ := by
  decide

/-- C8: with the empty boundary `ParsePart` yields no part and performs no write, on
every input stream; so a nested part whose Content-Type is multipart/* but has no
boundary parameter contributes nothing (its body is never split) and the enclosing level
goes on with its next part. -/
theorem empty_boundary_yields_nothing (L : Lib) :
    (∀ (stream : Stream) (index : Int),
      (ParsePart L stream "" index).writes = [] ∧ leavesOf L stream "" = [] ∧
      (tracePanic index = none → ParsePart L stream "" index = ⟨[], .returned⟩)) ∧
    (∀ (header : Header) (mediaType : String) (params : List (String × String)),
      ParseMediaType L (header.Get "Content-Type") = .ok (mediaType, params) →
      isMultipart mediaType = true → params.lookup "boundary" = none →
      nestedBoundary L header = some "") ∧
    (∀ (boundary : String) (index : Int) (header : Header) (body : Stream) (rest : Parts),
      nestedBoundary L header = some "" → tracePanic (wrapInt (index + 1)) = none →
      nextParts L boundary index (.part header body rest) = nextParts L boundary index rest ∧
      leavesIn L boundary (.part header body rest) = leavesIn L boundary rest) := by
  refine ⟨?_, ?_, ?_⟩
  · intro stream index
    cases stream with
    | mk data err parts =>
      rw [ParsePart_eq, leavesOf]
      refine ⟨?_, by simp, ?_⟩
      · cases h : tracePanic index with
        | some msg => rfl
        | none => simp only [if_true]
      · intro h
        rw [h]
        simp only [if_true]
  · intro header mediaType params h1 h2 h3
    unfold nestedBoundary
    rw [h1]
    simp only [h2, if_true, paramsGet, h3, Option.getD_none]
  · intro boundary index header body rest hn hi
    cases body with
    | mk data err parts =>
      rw [nextParts_part, hn, leavesIn, hn]
      simp only
      rw [ParsePart_eq, hi]
      simp only [if_true]
      rw [andThen_nil_returned, leavesOf, if_pos rfl, List.nil_append]
      exact ⟨rfl, rfl⟩

theorem empty_boundary_yields_nothing_witness :
    nestedBoundary sampleLib [("Content-Type", ["multipart/mixed"])] = some "" ∧
    tracePanic (wrapInt (1 + 1)) = none ∧
    nextParts sampleLib "outer" 1 noBoundaryParts
      = ⟨[("_test/out/outer-1.png", bytesOf "second")], .returned⟩ :=
  ⟨by decide, by decide,
    (((empty_boundary_yields_nothing sampleLib).2.2 "outer" 1
      [("Content-Type", ["multipart/mixed"])]
      (.mk [] none (fun _ => .part pngHeader (leafBody "hidden") .eof))
      (.part pngHeader (leafBody "second") .eof) (by decide) (by decide)).1).trans (by decide)⟩

/-- C9: when the top-level Content-Type is missing, cannot be parsed, or names a media
type that does not start with `multipart/`, `Parse` ends in a fatal error and `ParsePart`
is not run (there is no outcome, hence no write); when it names a multipart/* type,
`Parse` is one run of `ParsePart` on the message body with the declared boundary parameter
and index 1. -/
theorem Parse_requires_multipart (L : Lib) (message : MessageReader) (header : Header)
    (body : Stream) (hmsg : message.ReadMessage = .ok (header, body)) :
    (header.lookup "Content-Type" = none → ∃ e, Parse L message = .error e) ∧
    (∀ e, ParseMediaType L (header.Get "Content-Type") = .error e →
      Parse L message = .error e) ∧
    (∀ mediaType params,
      ParseMediaType L (header.Get "Content-Type") = .ok (mediaType, params) →
      isMultipart mediaType = false →
      Parse L message = .error "Not a multipart MIME message") ∧
    (∀ mediaType params,
      ParseMediaType L (header.Get "Content-Type") = .ok (mediaType, params) →
      isMultipart mediaType = true →
      Parse L message = .ok (ParsePart L body (paramsGet params "boundary") 1)) := by
  refine ⟨?_, ?_, ?_, ?_⟩
  · intro h
    refine ⟨"mime: no media type", ?_⟩
    unfold Parse
    rw [hmsg]
    simp only [Header.Get, h, ParseMediaType, if_true]
  · intro e h
    unfold Parse
    rw [hmsg]
    simp only [h]
  · intro mediaType params h1 h2
    unfold Parse
    rw [hmsg]
    simp only [h1, h2, Bool.not_false, if_true]
  · intro mediaType params h1 h2
    unfold Parse
    rw [hmsg]
    simp [h1, h2]

theorem Parse_requires_multipart_witness :
    Parse sampleLib ⟨.ok ([("Content-Type", ["multipart/alternative; boundary=inner"])],
        twoLeaves)⟩
      = .ok ⟨[("_test/out/inner-1.png", bytesOf "first"),
          ("_test/out/inner-1.png", bytesOf "second")], .returned⟩ ∧
    Parse sampleLib ⟨.ok ([("Content-Type", ["text/html"])], twoLeaves)⟩
      = .error "Not a multipart MIME message" :=
  ⟨((Parse_requires_multipart sampleLib _
      [("Content-Type", ["multipart/alternative; boundary=inner"])] twoLeaves rfl).2.2.2
      "multipart/alternative" [("boundary", "inner")] (by decide) (by decide)).trans (by decide),
    (Parse_requires_multipart sampleLib _ [("Content-Type", ["text/html"])] twoLeaves rfl).2.2.1
      "text/html" [] (by decide) (by decide)⟩

/-- C1 (code bug): a message whose two leaves both decode, the first with a media type
that has no registered extension and no file name.  `BuildFileName` indexes the empty
extension list, the panic unwinds `ParsePart`, and no leaf is written. -/
theorem ParsePart_unregistered_type_panics :
    (leavesOf sampleLib unregisteredFirst "outer").length = 2 ∧
    (∀ leaf ∈ leavesOf sampleLib unregisteredFirst "outer", decodes sampleLib leaf.1 = true) ∧
    BuildFileName sampleLib ⟨unregisteredHeader, leafBody "data"⟩ "outer" 1
      = .error "index out of range [0] with length 0" ∧
    ParsePart sampleLib unregisteredFirst "outer" 1
      = ⟨[], .panicked "index out of range [0] with length 0"⟩ := by
  decide

/-- C10 (code bug): two different leaves of one multipart level, neither declaring a file
name, are written to the same destination: the name is built from the boundary and the
constant 1, not from an index that changes. -/
theorem ParsePart_same_name_twice :
    ParsePart sampleLib twoLeaves "outer" 1
      = ⟨[("_test/out/outer-1.png", bytesOf "first"),
          ("_test/out/outer-1.png", bytesOf "second")], .returned⟩ ∧
    BuildFileName sampleLib ⟨pngHeader, leafBody "first"⟩ "outer" 1
      = BuildFileName sampleLib ⟨pngHeader, leafBody "second"⟩ "outer" 1 := by
  decide


/-! ## Base64 round trip -/

theorem decodeMap_getD : ∀ k < 64, decodeMap (encodeStd.getD k 0) = k := by
  decide

theorem decodeMap_newline (c : Byte) (h : isNewline c = true) : decodeMap c = 255 := by
  unfold isNewline at h
  simp only [Bool.or_eq_true, decide_eq_true_eq] at h
  rcases h with rfl | rfl <;> decide

theorem decodeFrom_cons_valid (c : Byte) (rest : Bytes) (dbuf : List Nat)
    (h : decodeMap c ≠ 255) :
    decodeFrom (c :: rest) dbuf =
      if dbuf.length = 3 then
        (decodeFrom rest []).map (fun out => assemble (dbuf ++ [decodeMap c]) ++ out)
      else decodeFrom rest (dbuf ++ [decodeMap c]) := by
  rw [decodeFrom, if_pos h]

theorem decodeFrom_cons_newline (c : Byte) (rest : Bytes) (dbuf : List Nat)
    (h : isNewline c = true) :
    decodeFrom (c :: rest) dbuf = decodeFrom rest dbuf := by
  rw [decodeFrom, if_neg (by rw [decodeMap_newline c h]; simp), if_pos h]

theorem decodeFrom_cons_other (c : Byte) (rest : Bytes) (dbuf : List Nat)
    (h : decodeMap c = 255) (hn : isNewline c = false) :
    decodeFrom (c :: rest) dbuf =
      if c ≠ 61 then .error "illegal base64 data"
      else if dbuf.length < 2 then .error "illegal base64 data"
      else if dbuf.length = 2 then
        match skipNewlines rest with
        | [] => .error "illegal base64 data"
        | c2 :: rest2 =>
          if c2 ≠ 61 then .error "illegal base64 data" else afterPadding rest2 dbuf
      else afterPadding rest dbuf := by
  rw [decodeFrom, if_neg (by rw [h]; simp), if_neg (by rw [hn]; simp)]

/-- The input without its carriage returns and line feeds. -/
theorem skipNewlines_filter (l : Bytes) :
    skipNewlines (l.filter (fun c => !isNewline c)) = l.filter (fun c => !isNewline c) := by
  induction l with
  | nil => rfl
  | cons c l ih =>
    by_cases h : isNewline c = true
    · rw [List.filter_cons_of_neg (by simp [h])]; exact ih
    · rw [List.filter_cons_of_pos (by simpa using h), skipNewlines, if_neg h]

theorem filter_skipNewlines (l : Bytes) :
    (skipNewlines l).filter (fun c => !isNewline c) = l.filter (fun c => !isNewline c) := by
  induction l with
  | nil => rfl
  | cons c l ih =>
    by_cases h : isNewline c = true
    · rw [skipNewlines, if_pos h, List.filter_cons_of_neg (by simp [h])]; exact ih
    · rw [skipNewlines, if_neg h]

theorem skipNewlines_head (l : Bytes) (c : Byte) (r : Bytes) (h : skipNewlines l = c :: r) :
    isNewline c = false := by
  induction l with
  | nil => cases h
  | cons d l ih =>
    by_cases hd : isNewline d = true
    · rw [skipNewlines, if_pos hd] at h; exact ih h
    · rw [skipNewlines, if_neg hd] at h
      cases h
      simpa using hd

theorem skipNewlines_eq_nil_iff (l : Bytes) :
    skipNewlines l = [] ↔ l.filter (fun c => !isNewline c) = [] := by
  constructor
  · intro h
    rw [← filter_skipNewlines, h]; rfl
  · intro h
    cases hs : skipNewlines l with
    | nil => rfl
    | cons c r =>
      have hc := skipNewlines_head l c r hs
      rw [← filter_skipNewlines, hs, List.filter_cons_of_pos (by simp [hc])] at h
      cases h

theorem afterPadding_filter (l : Bytes) (dbuf : List Nat) :
    afterPadding (l.filter (fun c => !isNewline c)) dbuf = afterPadding l dbuf := by
  unfold afterPadding
  rw [skipNewlines_filter]
  by_cases h : skipNewlines l = []
  · rw [if_pos h, if_pos ((skipNewlines_eq_nil_iff l).1 h)]
  · rw [if_neg h, if_neg (fun h1 => h ((skipNewlines_eq_nil_iff l).2 h1))]

/-- Carriage returns and line feeds are ignored wherever they stand. -/
theorem decodeFrom_filter (s : Bytes) : ∀ dbuf : List Nat,
    decodeFrom (s.filter (fun c => !isNewline c)) dbuf = decodeFrom s dbuf := by
  induction s with
  | nil => intro dbuf; rfl
  | cons c rest ih =>
    intro dbuf
    by_cases hn : isNewline c = true
    · rw [List.filter_cons_of_neg (by simp [hn]), decodeFrom_cons_newline c rest dbuf hn]
      exact ih dbuf
    · have hn1 : isNewline c = false := by simpa using hn
      rw [List.filter_cons_of_pos (by simp [hn1])]
      by_cases hv : decodeMap c ≠ 255
      · rw [decodeFrom_cons_valid c _ dbuf hv, decodeFrom_cons_valid c _ dbuf hv, ih, ih]
      · have hv1 : decodeMap c = 255 := by simpa using hv
        rw [decodeFrom_cons_other c _ dbuf hv1 hn1, decodeFrom_cons_other c _ dbuf hv1 hn1,
          skipNewlines_filter, afterPadding_filter]
        cases hs : skipNewlines rest with
        | nil =>
          rw [(skipNewlines_eq_nil_iff rest).1 hs]
        | cons c2 rest2 =>
          have hc2 := skipNewlines_head rest c2 rest2 hs
          have : rest.filter (fun c => !isNewline c)
              = c2 :: rest2.filter (fun c => !isNewline c) := by
            rw [← filter_skipNewlines, hs, List.filter_cons_of_pos (by simp [hc2])]
          rw [this]
          simp only [afterPadding_filter]


theorem ofNat_eq_of_mod (n : Nat) (a : Byte) (h : n % 256 = a.val) :
    (Fin.ofNat n : Byte) = a := by
  apply Fin.ext
  simpa [Fin.ofNat] using h

theorem assemble_four (a b c : Byte) :
    assemble [a.val / 4, a.val % 4 * 16 + b.val / 16, b.val % 16 * 4 + c.val / 64, c.val % 64]
      = [a, b, c] := by
  have ha := a.isLt
  have hb := b.isLt
  have hc := c.isLt
  simp only [assemble, List.getD_cons_zero, List.getD_cons_succ, List.length_cons,
    List.length_nil, List.map_cons, List.map_nil]
  simp only [List.take, Nat.reduceAdd, Nat.reduceSub]
  rw [ofNat_eq_of_mod _ a (by omega), ofNat_eq_of_mod _ b (by omega),
    ofNat_eq_of_mod _ c (by omega)]

theorem assemble_three (a b : Byte) :
    assemble [a.val / 4, a.val % 4 * 16 + b.val / 16, b.val % 16 * 4] = [a, b] := by
  have ha := a.isLt
  have hb := b.isLt
  simp only [assemble, List.getD_cons_zero, List.getD_cons_succ, List.length_cons,
    List.length_nil, List.map_cons, List.map_nil, List.getD_nil]
  simp only [List.take, Nat.reduceAdd, Nat.reduceSub]
  rw [ofNat_eq_of_mod _ a (by omega), ofNat_eq_of_mod _ b (by omega)]

theorem assemble_two (a : Byte) :
    assemble [a.val / 4, a.val % 4 * 16] = [a] := by
  have ha := a.isLt
  simp only [assemble, List.getD_cons_zero, List.getD_cons_succ, List.length_cons,
    List.length_nil, List.map_cons, List.map_nil, List.getD_nil]
  simp only [List.take, Nat.reduceAdd, Nat.reduceSub]
  rw [ofNat_eq_of_mod _ a (by omega)]

theorem decodeFrom_letter (k : Nat) (hk : k < 64) (rest : Bytes) (dbuf : List Nat) :
    decodeFrom (encodeStd.getD k 0 :: rest) dbuf =
      if dbuf.length = 3 then
        (decodeFrom rest []).map (fun out => assemble (dbuf ++ [k]) ++ out)
      else decodeFrom rest (dbuf ++ [k]) := by
  rw [decodeFrom_cons_valid _ _ _ (by rw [decodeMap_getD k hk]; omega), decodeMap_getD k hk]

theorem decodeFrom_encode (b : Bytes) : decodeFrom (specBase64Encode b) [] = .ok b := by
  induction b using specBase64Encode.induct with
  | case1 a b c rest ih =>
    have ha := a.isLt
    have hb := b.isLt
    have hc := c.isLt
    rw [specBase64Encode]
    simp only [List.cons_append, List.nil_append]
    rw [decodeFrom_letter _ (by omega), if_neg (by simp), decodeFrom_letter _ (by omega),
      if_neg (by simp), decodeFrom_letter _ (by omega), if_neg (by simp),
      decodeFrom_letter _ (by omega), if_pos (by rfl), ih]
    simp only [List.nil_append, List.cons_append]
    rw [assemble_four]
    rfl
  | case2 a b =>
    have ha := a.isLt
    have hb := b.isLt
    rw [specBase64Encode]
    rw [decodeFrom_letter _ (by omega), if_neg (by simp), decodeFrom_letter _ (by omega),
      if_neg (by simp), decodeFrom_letter _ (by omega), if_neg (by simp),
      decodeFrom_cons_other _ _ _ (by decide) (by decide)]
    simp only [List.nil_append, List.cons_append]
    rw [if_neg (by simp), if_neg (by simp), if_neg (by simp)]
    unfold afterPadding
    rw [if_pos (by rfl), assemble_three]
  | case3 a =>
    have ha := a.isLt
    rw [specBase64Encode]
    rw [decodeFrom_letter _ (by omega), if_neg (by simp), decodeFrom_letter _ (by omega),
      if_neg (by simp), decodeFrom_cons_other _ _ _ (by decide) (by decide)]
    simp only [List.nil_append, List.cons_append]
    rw [if_neg (by simp), if_neg (by simp), if_pos (by simp)]
    simp only [skipNewlines, isNewline]
    rw [if_neg (by decide)]
    simp only [ne_eq, not_true_eq_false, if_false]
    unfold afterPadding
    rw [if_pos (by rfl), assemble_two]
  | case4 => rfl

/-- Base64 round trip: the standard encoding of `b`, with carriage returns and line feeds
inserted anywhere, decodes to `b`. -/
theorem DecodeString_roundtrip (b s : Bytes)
    (h : s.filter (fun c => !isNewline c) = specBase64Encode b) :
    DecodeString s = .ok b := by
  unfold DecodeString
  rw [← decodeFrom_filter, h, decodeFrom_encode]


/-! ## Quoted-printable round trip -/

theorem fromHex_hexDigit : ∀ k < 16, fromHex (hexDigit k) = some k := by
  decide

theorem printable_hexDigit : ∀ k < 16, Printable (hexDigit k) ∧ hexDigit k ≠ 61 := by
  unfold Printable
  decide

theorem qpToken_printable (x c : Byte) (h : c ∈ qpToken x) : Printable c := by
  unfold qpToken at h
  have hx := x.isLt
  split at h
  · rename_i hp
    simp only [List.mem_singleton] at h
    subst h
    exact ⟨hp.1, hp.2.1⟩
  · simp only [List.mem_cons, List.mem_singleton, List.not_mem_nil, or_false] at h
    rcases h with rfl | rfl | rfl
    · unfold Printable; decide
    · exact (printable_hexDigit _ (by omega)).1
    · exact (printable_hexDigit _ (by omega)).1

theorem qpToken_length (x : Byte) : 1 ≤ (qpToken x).length ∧ (qpToken x).length ≤ 3 := by
  unfold qpToken
  split <;> simp

/-- A token ends in a byte that is not `=`. -/
theorem qpToken_last (x : Byte) :
    ∃ init last, qpToken x = init ++ [last] ∧ last ≠ 61 := by
  unfold qpToken
  have hx := x.isLt
  split
  · rename_i hp
    refine ⟨[], x, rfl, ?_⟩
    intro h
    exact hp.2.2 (by rw [h]; rfl)
  · exact ⟨[61, hexDigit (x.val / 16)], hexDigit (x.val % 16), rfl,
      (printable_hexDigit _ (by omega)).2⟩

theorem decodeLine_token (x : Byte) (rest : Bytes) :
    decodeLine (qpToken x ++ rest) = (decodeLine rest).map (fun out => x :: out) := by
  unfold qpToken
  have hx := x.isLt
  split
  · rename_i hp
    simp only [List.singleton_append]
    rw [decodeLine.eq_def]
    simp only
    have h61 : x ≠ 61 := fun h => hp.2.2 (by rw [h]; rfl)
    have h9 : ¬ (x = 9 ∨ x = 13 ∨ x = 10) := by
      intro h
      rcases h with h | h | h <;> rw [h] at hp <;> revert hp <;> decide
    rw [if_neg h61, if_neg h9, if_neg (by omega), if_neg (by omega)]
  · simp only [List.cons_append, List.nil_append]
    rw [decodeLine.eq_def]
    simp only [if_true, readHexByte, fromHex_hexDigit (x.val / 16) (by omega),
      fromHex_hexDigit (x.val % 16) (by omega)]
    rw [ofNat_eq_of_mod _ x (by omega)]

theorem tokens_append (p q : Bytes) : tokens (p ++ q) = tokens p ++ tokens q := by
  unfold tokens; rw [List.flatMap_append]

theorem tokens_singleton (x : Byte) : tokens [x] = qpToken x := by
  simp [tokens]

theorem tokens_printable (p : Bytes) (c : Byte) (h : c ∈ tokens p) : Printable c := by
  unfold tokens at h
  rw [List.mem_flatMap] at h
  obtain ⟨x, _, hx⟩ := h
  exact qpToken_printable x c hx

theorem decodeLine_tokens (p rest : Bytes) :
    decodeLine (tokens p ++ rest) = (decodeLine rest).map (fun out => p ++ out) := by
  induction p with
  | nil =>
    simp only [tokens, List.flatMap_nil, List.nil_append]
    cases decodeLine rest <;> rfl
  | cons x p ih =>
    have : tokens (x :: p) = qpToken x ++ tokens p := by simp [tokens]
    rw [this, List.append_assoc, decodeLine_token, ih]
    cases decodeLine rest <;> rfl

theorem tokens_last (p : Bytes) (hp : p ≠ []) :
    ∃ init last, tokens p = init ++ [last] ∧ last ≠ 61 := by
  obtain ⟨q, x, rfl⟩ : ∃ q x, p = q ++ [x] :=
    ⟨p.dropLast, p.getLast hp, (List.dropLast_append_getLast hp).symm⟩
  obtain ⟨init, last, ht, hl⟩ := qpToken_last x
  refine ⟨tokens q ++ init, last, ?_, hl⟩
  rw [tokens_append, tokens_singleton, ht, List.append_assoc]


theorem slices_line (Q R : Bytes) (hQ : ∀ c ∈ Q, c ≠ 10) :
    slices (Q ++ 10 :: R) = (Q ++ [10]) :: slices R := by
  induction Q with
  | nil => simp [slices]
  | cons c Q ih =>
    have hc : c ≠ 10 := hQ c (List.mem_cons_self _ _)
    rw [List.cons_append, slices, if_neg hc, ih (fun x hx => hQ x (List.mem_cons_of_mem _ hx))]
    rfl

theorem slices_last (Q : Bytes) (hne : Q ≠ []) (hQ : ∀ c ∈ Q, c ≠ 10) : slices Q = [Q] := by
  induction Q with
  | nil => exact absurd rfl hne
  | cons c Q ih =>
    have hc : c ≠ 10 := hQ c (List.mem_cons_self _ _)
    rw [slices, if_neg hc]
    cases Q with
    | nil => rfl
    | cons d Q =>
      rw [ih (by simp) (fun x hx => hQ x (List.mem_cons_of_mem _ hx))]

theorem printable_ne (c : Byte) (h : Printable c) :
    c ≠ 10 ∧ c ≠ 13 ∧ c ≠ 32 ∧ c ≠ 9 := by
  unfold Printable at h
  refine ⟨?_, ?_, ?_, ?_⟩ <;> intro hc <;> rw [hc] at h <;> revert h <;> decide

theorem printable_not_discarded (c : Byte) (h : Printable c) :
    isQPDiscardWhitespace c = false := by
  obtain ⟨h1, h2, h3, h4⟩ := printable_ne c h
  simp [isQPDiscardWhitespace, h1, h2, h3, h4]

theorem trimRight_soft (Q : Bytes) : trimRight (Q ++ [61, 13, 10]) = Q ++ [61] := by
  unfold trimRight
  simp [List.dropWhile, isQPDiscardWhitespace]

theorem trimRight_last (init : Bytes) (last : Byte) (h : Printable last) :
    trimRight (init ++ [last]) = init ++ [last] := by
  unfold trimRight
  simp [List.dropWhile, printable_not_discarded last h]

theorem prepareLine_soft (Q : Bytes) : prepareLine (Q ++ [61, 13, 10]) false = .ok Q := by
  unfold prepareLine
  simp only [trimRight_soft]
  have h1 : [(61 : Byte)].isSuffixOf (Q ++ [61]) = true := by
    simp [List.isSuffixOf, List.isPrefixOf]
  have h2 : (Q ++ [61, 13, 10]).drop (Q ++ [61]).length = [13, 10] := by
    have : Q ++ [61, 13, 10] = (Q ++ [61]) ++ [13, 10] := by simp
    rw [this, List.drop_left]
  rw [if_pos h1, h2]
  simp [List.isPrefixOf]

theorem prepareLine_last (init : Bytes) (last : Byte) (h : Printable last) (h61 : last ≠ 61) :
    prepareLine (init ++ [last]) true = .ok (init ++ [last]) := by
  unfold prepareLine
  simp only [trimRight_last init last h]
  have h1 : [(61 : Byte)].isSuffixOf (init ++ [last]) = false := by
    simp [List.isSuffixOf, List.isPrefixOf]
    exact fun h => h61 h.symm
  have h2 : [(10 : Byte)].isSuffixOf (init ++ [last]) = false := by
    simp [List.isSuffixOf, List.isPrefixOf]
    exact fun h10 => (printable_ne last h).1 h10.symm
  rw [h1, h2]
  simp


theorem decodeLine_tokens_all (p : Bytes) : decodeLine (tokens p) = .ok p := by
  have h := decodeLine_tokens p []
  rw [List.append_nil] at h
  rw [h, decodeLine]
  simp [Except.map]

theorem decodeSlice_soft (p : Bytes) (hlen : (tokens p).length ≤ 75) :
    decodeSlice (tokens p ++ [61, 13, 10]) = .ok p := by
  unfold decodeSlice
  have h1 : [(10 : Byte)].isSuffixOf (tokens p ++ [61, 13, 10]) = true := by
    simp [List.isSuffixOf, List.isPrefixOf]
  have h2 : (tokens p ++ [61, 13, 10]).length = (tokens p).length + 3 := by simp
  simp only [h1, h2, Bool.true_and, Bool.not_true, Bool.false_and, Bool.or_false,
    prepareLine_soft, decodeLine_tokens_all]
  rw [if_neg (by simp; omega)]

theorem decodeSlice_last (p : Bytes) (hp : p ≠ []) (hlen : (tokens p).length ≤ 75) :
    decodeSlice (tokens p) = .ok p := by
  obtain ⟨init, last, ht, h61⟩ := tokens_last p hp
  have hpr : Printable last := tokens_printable p last (by rw [ht]; simp)
  unfold decodeSlice
  have h1 : [(10 : Byte)].isSuffixOf (tokens p) = false := by
    rw [ht]
    simp [List.isSuffixOf, List.isPrefixOf]
    exact fun h10 => (printable_ne last hpr).1 h10.symm
  simp only [h1, Bool.false_and, Bool.not_false, Bool.true_and, Bool.false_or]
  rw [if_neg (by simp; omega)]
  have h2 := prepareLine_last init last hpr h61
  rw [← ht] at h2
  rw [h2]
  exact decodeLine_tokens_all p

theorem decodeSlices_encode (bs : Bytes) : ∀ (p : Bytes) (col : Nat),
    col = (tokens p).length → col ≤ 75 →
    decodeSlices (slices (tokens p ++ specQPEncodeFrom col bs)) = .ok (p ++ bs) := by
  induction bs with
  | nil =>
    intro p col _ hle
    rw [specQPEncodeFrom, List.append_nil, List.append_nil]
    by_cases hp : p = []
    · subst hp; rfl
    · subst col
      rw [slices_last (tokens p)
        (by obtain ⟨init, last, ht, _⟩ := tokens_last p hp; rw [ht]; simp)
        (fun c hc => (printable_ne c (tokens_printable p c hc)).1)]
      rw [decodeSlices, decodeSlice_last p hp hle]
      simp [decodeSlices, Except.map]
  | cons x rest ih =>
    intro p col hcol hle
    have htok := qpToken_length x
    rw [specQPEncodeFrom]
    by_cases hbreak : col + (qpToken x).length > 75
    · rw [if_pos hbreak]
      have hshape : tokens p ++ ([61, 13, 10] ++ qpToken x
            ++ specQPEncodeFrom (qpToken x).length rest)
          = (tokens p ++ [61, 13]) ++ 10 :: (tokens [x]
            ++ specQPEncodeFrom (qpToken x).length rest) := by
        simp [tokens_singleton]
      rw [hshape, slices_line _ _ (by
        intro c hc
        rw [List.mem_append] at hc
        rcases hc with hc | hc
        · exact (printable_ne c (tokens_printable p c hc)).1
        · simp only [List.mem_cons, List.mem_singleton, List.not_mem_nil, or_false] at hc
          rcases hc with rfl | rfl <;> decide)]
      rw [decodeSlices, ih [x] (qpToken x).length (by rw [tokens_singleton]) (by omega)]
      have hline : tokens p ++ [61, 13] ++ [10] = tokens p ++ [61, 13, 10] := by simp
      rw [hline, decodeSlice_soft p (by omega)]
      simp [Except.map]
    · rw [if_neg hbreak]
      have hshape : tokens p ++ (qpToken x ++ specQPEncodeFrom (col + (qpToken x).length) rest)
          = tokens (p ++ [x]) ++ specQPEncodeFrom (col + (qpToken x).length) rest := by
        rw [tokens_append, tokens_singleton, List.append_assoc]
      rw [hshape, ih (p ++ [x]) (col + (qpToken x).length)
        (by rw [tokens_append, tokens_singleton, List.length_append, hcol]) (by omega)]
      simp

/-- Quoted-printable round trip: the encoding of `b` decodes to `b`. -/
theorem qpReadAll_roundtrip (b : Bytes) : qpReadAll (specQuotedPrintableEncode b) = .ok b := by
  have h := decodeSlices_encode b [] 0 rfl (by omega)
  simpa [tokens, qpReadAll, specQuotedPrintableEncode] using h

/-- C2: round trip through `WritePart`.  When the Content-Transfer-Encoding is BASE64
(any letter case) and the body is the standard base64 encoding of the blob `b`, also with
CR and LF line breaks inserted anywhere, or when the encoding is QUOTED-PRINTABLE and the
body is the quoted-printable encoding of `b`, `WritePart` makes exactly one write, of `b`
byte for byte, to the given file name. -/
theorem WritePart_roundtrip (L : Lib) (part : Part) (filename : String) (b partData : Bytes)
    (hread : part.body.ReadAll = .ok partData)
    (henc : (ToUpper L (part.Header.Get "Content-Transfer-Encoding") = "BASE64" ∧
        partData.filter (fun c => !isNewline c) = specBase64Encode b) ∨
      (ToUpper L (part.Header.Get "Content-Transfer-Encoding") = "QUOTED-PRINTABLE" ∧
        partData = specQuotedPrintableEncode b)) :
    WritePart L part filename = [(filename, b)] := by
  unfold WritePart
  rw [hread]
  rcases henc with ⟨h1, h2⟩ | ⟨h1, h2⟩
  · simp only [h1, if_true, DecodeString_roundtrip b partData h2]
  · simp only [h1]
    rw [if_neg (by decide), if_pos trivial, h2, qpReadAll_roundtrip]

theorem WritePart_roundtrip_witness :
    WritePart sampleLib ⟨htmlBase64Header, leafBody "aGVs\r\nbG8="⟩ "out.htm"
      = [("out.htm", bytesOf "hello")] ∧
    WritePart sampleLib ⟨quotedPrintableHeader, leafBody "a=3Db=0A"⟩ "out.txt"
      = [("out.txt", bytesOf "a=b\n")] :=
  ⟨WritePart_roundtrip sampleLib ⟨htmlBase64Header, leafBody "aGVs\r\nbG8="⟩ "out.htm"
      (bytesOf "hello") (bytesOf "aGVs\r\nbG8=") (by decide) (Or.inl ⟨by decide, by decide⟩),
    WritePart_roundtrip sampleLib ⟨quotedPrintableHeader, leafBody "a=3Db=0A"⟩ "out.txt"
      (bytesOf "a=b\n") (bytesOf "a=3Db=0A") (by decide) (Or.inr ⟨by decide, by decide⟩)⟩


/-! ## Counting the writes of a traversal that returns -/

theorem WritePart_length (L : Lib) (part : Part) (filename : String) :
    (WritePart L part filename).length = if decodes L part = true then 1 else 0 := by
  unfold WritePart decodes
  cases part.body.ReadAll with
  | error e => rfl
  | ok partData =>
    simp only
    by_cases h1 : ToUpper L (part.Header.Get "Content-Transfer-Encoding") = "BASE64"
    · simp only [if_pos h1]
      cases DecodeString partData <;> rfl
    · simp only [if_neg h1]
      by_cases h2 : ToUpper L (part.Header.Get "Content-Transfer-Encoding") = "QUOTED-PRINTABLE"
      · simp only [if_pos h2]
        cases qpReadAll partData <;> rfl
      · simp only [if_neg h2]
        rfl

mutual
theorem ParsePart_returned_names (L : Lib) : ∀ (s : Stream) (boundary : String) (index : Int),
    (ParsePart L s boundary index).status = .returned →
    ∀ leaf ∈ leavesOf L s boundary, ∃ filename, BuildFileName L leaf.1 leaf.2 1 = .ok filename
  | .mk data err parts, boundary, index, h => by
    rw [ParsePart_eq] at h
    rw [leavesOf]
    cases h1 : tracePanic index with
    | some msg => rw [h1] at h; cases h
    | none =>
      rw [h1] at h
      simp only at h
      by_cases h2 : boundary = ""
      · rw [if_pos h2]; intro leaf hl; cases hl
      · rw [if_neg h2] at h ⊢
        exact nextParts_returned_names L boundary index (parts boundary) h
theorem nextParts_returned_names (L : Lib) : ∀ (boundary : String) (index : Int) (ps : Parts),
    (nextParts L boundary index ps).status = .returned →
    ∀ leaf ∈ leavesIn L boundary ps, ∃ filename, BuildFileName L leaf.1 leaf.2 1 = .ok filename
  | boundary, index, .eof, _ => by rw [leavesIn]; intro leaf hl; cases hl
  | boundary, index, .fail _, _ => by rw [leavesIn]; intro leaf hl; cases hl
  | boundary, index, .part header body rest, h => by
    rw [nextParts_part] at h
    rw [leavesIn]
    intro leaf hl
    rw [List.mem_append] at hl
    cases hn : nestedBoundary L header with
    | some nested =>
      rw [hn] at h hl
      simp only at h hl
      have hs := andThen_status_returned h
      rcases hl with hl | hl
      · exact ParsePart_returned_names L body nested _ hs.1 leaf hl
      · exact nextParts_returned_names L boundary index rest hs.2 leaf hl
    | none =>
      rw [hn] at h hl
      simp only at h hl
      cases hb : BuildFileName L ⟨header, body⟩ boundary 1 with
      | error msg => rw [hb] at h; cases h
      | ok filename =>
        rw [hb] at h
        simp only at h
        have hs := andThen_status_returned h
        rcases hl with hl | hl
        · rw [List.mem_singleton] at hl
          subst hl
          exact ⟨filename, hb⟩
        · exact nextParts_returned_names L boundary index rest hs.2 leaf hl
end

theorem leafWrites_count (L : Lib) (leaves : List (Part × String))
    (h : ∀ leaf ∈ leaves, ∃ filename, BuildFileName L leaf.1 leaf.2 1 = .ok filename) :
    (leaves.flatMap (leafWrites L)).length
      = (leaves.filter (fun leaf => decodes L leaf.1)).length := by
  induction leaves with
  | nil => rfl
  | cons leaf leaves ih =>
    obtain ⟨filename, hname⟩ := h leaf (List.mem_cons_self _ _)
    have ih1 := ih (fun x hx => h x (List.mem_cons_of_mem _ hx))
    rw [List.flatMap_cons, List.length_append, ih1]
    have hw : (leafWrites L leaf).length = if decodes L leaf.1 = true then 1 else 0 := by
      unfold leafWrites
      rw [hname]
      exact WritePart_length L leaf.1 _
    rw [hw]
    by_cases hd : decodes L leaf.1 = true
    · rw [if_pos hd, List.filter_cons_of_pos (by simpa using hd), List.length_cons]; omega
    · rw [if_neg hd, List.filter_cons_of_neg (by simpa using hd)]; omega

/-- When `ParsePart` returns (no panic), it has made one write for each leaf of the walk
whose body decodes, and none for a container: the number of writes is the number of such
leaves.  A body that holds only the closing boundary gives no write. -/
theorem ParsePart_write_count (L : Lib) (stream : Stream) (boundary : String) (index : Int)
    (h : (ParsePart L stream boundary index).status = .returned) :
    (ParsePart L stream boundary index).writes.length
      = ((leavesOf L stream boundary).filter (fun leaf => decodes L leaf.1)).length := by
  rw [ParsePart_writes L stream boundary index h]
  exact leafWrites_count L _ (ParsePart_returned_names L stream boundary index h)

theorem ParsePart_closing_boundary_only (L : Lib) (data : Bytes) (err : Option String)
    (boundary : String) (index : Int) (h : tracePanic index = none) :
    ParsePart L (.mk data err (fun _ => .eof)) boundary index = ⟨[], .returned⟩ := by
  rw [ParsePart_eq, h]
  simp only
  by_cases h2 : boundary = ""
  · rw [if_pos h2]
  · rw [if_neg h2, nextParts]

end Xmail
